import Mathlib

set_option maxRecDepth 100000

/-!
Shallow embedding of the FUNDOSHI mint backend (src/server.js, the express
server variant with the two-phase /mint + /mint/sign flow) together with the
fragments of its external collaborators (@solana/web3.js transaction
serialization and the tweetnacl signing primitive) that the handlers invoke.
Identities are base58 account-address strings compared by exact equality;
byte buffers are lists of naturals.
-/

/-- Identities (Solana account addresses) are base58 strings compared by
exact string equality, as in the JavaScript source. -/
abbrev Pubkey := String

/-- Byte buffers (Node Buffer / Uint8Array contents). -/
abbrev Bytes := List Nat

/-- Result of reading and JSON-parsing one of the two list files
(whitelist.json / minted.json): the read or parse can throw, the parse can
yield a non-array value, or it yields an array of identity strings. -/
inductive FileRead where
  | failure
  | nonArray
  | array (xs : List String)
deriving DecidableEq, Repr

/-- Outcome of the eligibility evaluator: mirrors the JSON objects
`{eligible:boolean, reason?:string}` returned by checkEligibility. -/
structure Eligibility where
  eligible : Bool
  reason : Option String
deriving DecidableEq, Repr

/-- Reason string from src/server.js line 110. -/
def notOnWhitelistReason : String := "Wallet not on whitelist"

/-- Reason string from src/server.js line 116. -/
def alreadyMintedReason : String := "Wallet has already minted"

/-- loadWhitelist (src/server.js lines 65-78): value returned together with
the whitelist file state afterwards.  Both the catch branch and the
non-array branch return an empty list; neither writes the file. -/
def loadWhitelistEff : FileRead → List String × FileRead
  | .failure => ([], .failure)
  | .nonArray => ([], .nonArray)
  | .array xs => (xs, .array xs)

/-- loadMinted (src/server.js lines 80-94): value returned together with the
minted file state afterwards.  The catch branch (read or parse failure)
writes a fresh empty minted.json before returning the empty list; the
non-array branch only returns the empty list. -/
def loadMintedEff : FileRead → List String × FileRead
  | .failure => ([], .array [])
  | .nonArray => ([], .nonArray)
  | .array xs => (xs, .array xs)

/-- Pure core of checkEligibility (src/server.js lines 107-119), applied to
the two loaded lists: whitelist membership is tested first, then the
minted list, using Array.prototype.includes (exact string equality). -/
def checkEligibilityCore (whitelist minted : List String) (wallet : String) : Eligibility :=
  if ¬ whitelist.contains wallet then
    { eligible := false, reason := some notOnWhitelistReason }
  else if minted.contains wallet then
    { eligible := false, reason := some alreadyMintedReason }
  else
    { eligible := true, reason := none }

/-- checkEligibility (src/server.js lines 103-120) with the file states
threaded through, so that the write performed by loadMinted on a read
failure is observable in the result. -/
def checkEligibility (wlFile mtFile : FileRead) (wallet : String) :
    Eligibility × FileRead × FileRead :=
  let wl := loadWhitelistEff wlFile
  let mt := loadMintedEff mtFile
  (checkEligibilityCore wl.1 mt.1 wallet, wl.2, mt.2)

/-- Outcome of the /mint/confirm handler as seen by the client. -/
inductive ConfirmOutcome where
  | success (signature : String)
  | notConfirmed (status : Option String)
deriving DecidableEq, Repr

/-- POST /mint/confirm handler core (src/server.js lines 482-520), after the
presence check on wallet and signature: given the confirmation status
reported by the ledger (`confirmation.value?.confirmationStatus`) and the
current minted list, returns the response and the new minted list. -/
def mintConfirm (status : Option String) (minted : List String)
    (wallet signature : String) : ConfirmOutcome × List String :=
  if status = some "confirmed" ∨ status = some "finalized" then
    if minted.contains wallet then
      (.success signature, minted)
    else
      (.success signature, minted ++ [wallet])
  else
    (.notConfirmed status, minted)

/-- Minimal JSON value model, enough to express JSON-RPC request ids and
JavaScript truthiness on them. -/
inductive JVal where
  | jnull
  | jbool (b : Bool)
  | jnum (n : Int)
  | jstr (s : String)
deriving DecidableEq, Repr

/-- JavaScript truthiness of a JSON value: null, false, 0 and the empty
string are falsy, everything else here is truthy. -/
def jsTruthy : JVal → Bool
  | .jnull => false
  | .jbool b => b
  | .jnum n => decide (n ≠ 0)
  | .jstr s => decide (s ≠ "")

/-- Combined outcome of `fetch` plus `response.json()` in the /rpc handler:
either a parsed JSON body or a thrown transport/parse error message. -/
inductive FetchOutcome where
  | success (body : JVal)
  | failure (message : String)
deriving DecidableEq, Repr

/-- Response emitted by the /rpc handler. -/
inductive RpcResponse where
  | relayed (body : JVal)
  | errorEnvelope (code : Int) (message : String) (id : JVal)
deriving DecidableEq, Repr

/-- POST /rpc handler (src/server.js lines 448-479): on success the parsed
upstream response is returned unmodified; in the catch branch a JSON-RPC
error envelope with code -32603 is synthesized whose id is
`req.body.id || null` — the request id if it is truthy, otherwise null. -/
def rpcHandler (outcome : FetchOutcome) (requestId : Option JVal) : RpcResponse :=
  match outcome with
  | .success body => .relayed body
  | .failure msg =>
      .errorEnvelope (-32603) msg
        (match requestId with
         | some v => if jsTruthy v then v else .jnull
         | none => .jnull)

/-- One entry of a transaction's signature table: an identity together with
its signature or null, as in the web3.js `Transaction.signatures` array. -/
structure SigSlot where
  publicKey : Pubkey
  signature : Option Bytes
deriving DecidableEq, Repr

/-- The message part of a transaction, as the handlers use it: the list of
required signing identities its header declares (fee payer first, in the
order the compiled instruction set expects) and its serialized bytes.
The handlers treat the body bytes as opaque apart from these keys. -/
structure Message where
  requiredSigners : List Pubkey
  body : Bytes
deriving DecidableEq, Repr

/-- A web3.js Transaction as the /mint/sign handler sees one deserialized
from the wire: a signature table plus the message. -/
structure Tx where
  signatures : List SigSlot
  message : Message
deriving DecidableEq, Repr

/-- A signer object produced by the Metaplex transaction builder: a public
identity possibly carrying secret key material (`signer.secretKey`). -/
structure Signer where
  publicKey : Pubkey
  secretKey : Option Bytes
deriving DecidableEq, Repr

/-- A keypair whose secret material the backend holds, cached between /mint
and /mint/sign. -/
structure Keypair where
  publicKey : Pubkey
  secretKey : Bytes
deriving DecidableEq, Repr

/-- Pending-transaction cache entry (src/server.js lines 252-257): the list
of backend signers plus the creation timestamp in milliseconds. -/
structure CacheEntry where
  signers : List Keypair
  timestamp : Nat
deriving DecidableEq, Repr

/-- The transactionCache Map, keyed by the requester's wallet address. -/
abbrev Cache := List (String × CacheEntry)

/-- Map.get on the transaction cache. -/
def cacheGet : Cache → String → Option CacheEntry
  | [], _ => none
  | (k, v) :: rest, key => if k = key then some v else cacheGet rest key

/-- Map.delete on the transaction cache. -/
def cacheDelete (c : Cache) (key : String) : Cache :=
  c.filter (fun kv => decide (kv.1 ≠ key))

/-- CACHE_TTL (src/server.js line 19): five minutes in milliseconds. -/
def CACHE_TTL : Nat := 5 * 60 * 1000

/-- The periodic cache sweep (src/server.js lines 22-30): entries whose age
exceeds CACHE_TTL are deleted; it runs every sixty seconds, independently
of any request. -/
def sweepCache (now : Nat) (c : Cache) : Cache :=
  c.filter (fun kv => decide (¬ (now - kv.2.timestamp > CACHE_TTL)))

/-- Abstract executable model of the ed25519 detached-signing primitive
`nacl.sign.detached` from the tweetnacl library (external to this
repository).  The server treats its output as an uninterpreted 64-byte
signature over exactly the given message and secret key, which is all this
model captures; it always produces 64 bytes. -/
def naclSignDetached (message secretKey : Bytes) : Bytes :=
  (secretKey ++ message ++ List.replicate 64 0).take 64

/-- First matching slot of the signature table for an identity, the lookup
both handlers perform (`findIndex`/`some` with base58 string equality). -/
def findSlot : List SigSlot → Pubkey → Option SigSlot
  | [], _ => none
  | s :: rest, pk => if s.publicKey = pk then some s else findSlot rest pk

/-- Whether some slot of the table matches the identity (the
`signatures.some(...)`/`findIndex(...) >= 0` tests in the source). -/
def hasSlot (sigs : List SigSlot) (pk : Pubkey) : Bool :=
  (findSlot sigs pk).isSome

/-- Signature-slot update of the /mint/sign handler (src/server.js lines
379-392): find the first slot whose identity matches the signer
(`findIndex` on base58 equality) and set its signature; if no slot
matches, push a new slot carrying the signature at the end. -/
def setBackendSignature : List SigSlot → Pubkey → Bytes → List SigSlot
  | [], pk, sig => [{ publicKey := pk, signature := some sig }]
  | s :: rest, pk, sig =>
      if s.publicKey = pk then { s with signature := some sig } :: rest
      else s :: setBackendSignature rest pk sig

/-- The backend signing loop of /mint/sign (src/server.js lines 370-393):
for each cached backend signer, compute a detached signature over the
message bytes and store it in the matching slot. -/
def addBackendSignatures (messageBytes : Bytes) (signers : List Keypair)
    (sigs : List SigSlot) : List SigSlot :=
  signers.foldl
    (fun acc kp => setBackendSignature acc kp.publicKey
      (naclSignDetached messageBytes kp.secretKey))
    sigs

/-- Membership test on the accumulated backend-signer map
(`backendSignersMap.has(pubkeyStr)` in src/server.js line 230). -/
def hasKeypair : List Keypair → Pubkey → Bool
  | [], _ => false
  | kp :: rest, pk => if kp.publicKey = pk then true else hasKeypair rest pk

/-- One step of the backend-signer collection loop in /mint (src/server.js
lines 227-237): skip the requester's own key, deduplicate by base58 key,
and keep only signers that actually carry secret material. -/
def addBackendSigner (wallet : Pubkey) (acc : List Keypair) (s : Signer) :
    List Keypair :=
  if s.publicKey = wallet then acc
  else if hasKeypair acc s.publicKey then acc
  else
    match s.secretKey with
    | some sk => acc ++ [{ publicKey := s.publicKey, secretKey := sk }]
    | none => acc

/-- The backendSignersMap built by /mint (src/server.js lines 225-237), in
Map insertion order. -/
def buildBackendSigners (wallet : Pubkey) (signers : List Signer) : List Keypair :=
  signers.foldl (addBackendSigner wallet) []

/-- The signature-slot setup loop of /mint (src/server.js lines 264-275):
starting from the new transaction's empty signature array, push a null
signature slot for each backend signer not already present. -/
def mintSetupSignatures (backend : List Keypair) : List SigSlot :=
  backend.foldl
    (fun acc kp =>
      if hasSlot acc kp.publicKey then acc
      else acc ++ [{ publicKey := kp.publicKey, signature := none }])
    []

/-- Compact length prefix of the Solana wire format (one byte below 128,
two bytes up to 16383), used for the signature count. -/
def shortvec (n : Nat) : Bytes :=
  if n < 128 then [n] else [128 + n % 128, n / 128]

/-- The 64 bytes a slot contributes to the wire form: its signature, or 64
zero bytes when still null. -/
def sigField (s : SigSlot) : Bytes :=
  match s.signature with
  | some b => b
  | none => List.replicate 64 0

/-- The serialized signature table: the concatenated signature fields. -/
def sigTableBytes (sigs : List SigSlot) : Bytes :=
  (sigs.map sigField).flatten

/-- Solana wire format of a transaction: compact signature count, the
signature table, then the message bytes. -/
def wireBytes (sigs : List SigSlot) (body : Bytes) : Bytes :=
  shortvec sigs.length ++ sigTableBytes sigs ++ body

/-- Boolean well-formedness of one slot: a present signature is 64 bytes. -/
def slotWf64 (s : SigSlot) : Bool :=
  match s.signature with
  | none => true
  | some b => b.length == 64

/-- Boolean well-formedness of a signature table. -/
def slotsWf64 (sigs : List SigSlot) : Bool :=
  sigs.all slotWf64

/-- Model of the `_compile` step inside web3.js `Transaction.serialize`
(external library code invoked at src/server.js lines 281-284 and
420-423): if the signature array matches the compiled message's required
signers pointwise it is kept, otherwise it is replaced by one null slot
per required signer in message order. -/
def compileSignatures (required : List Pubkey) (sigs : List SigSlot) : List SigSlot :=
  if sigs.map (fun s => s.publicKey) = required then sigs
  else required.map (fun pk => { publicKey := pk, signature := none })

/-- PACKET_DATA_SIZE from web3.js: the maximum wire size serialize accepts. -/
def PACKET_DATA_SIZE : Nat := 1232

/-- Model of web3.js `Transaction.serialize({requireAllSignatures:false,
verifySignatures:false})`: reconcile the signature array with the message,
then emit the wire bytes, failing on more than 255 signatures or an
oversized transaction. -/
def serializeTx (t : Tx) : Except String Bytes :=
  let sigs := compileSignatures t.message.requiredSigners t.signatures
  if 256 ≤ sigs.length then Except.error "invariant violated"
  else
    let wire := wireBytes sigs t.message.body
    if PACKET_DATA_SIZE < wire.length then Except.error "Transaction too large"
    else Except.ok wire

/-- The error message of src/server.js lines 317-319. -/
def expiredErrorMsg : String :=
  "Transaction expired or not found. Please request a new mint transaction."

/-- Response of the /mint/sign handler. -/
inductive SignResponse where
  | badRequest (error : String)
  | serverError (error : String)
  | ok (tx : Tx) (bytes : Bytes)
deriving DecidableEq, Repr

/-- POST /mint/sign handler (src/server.js lines 302-445) for a request
with both fields present, taking the current cache and the deserialized
incoming transaction (whose wire bytes are `wireBytes txIn.signatures
txIn.message.body`).  A missing cache entry is rejected as expired without
touching anything.  Otherwise the signable message is sliced out of the
raw buffer at offset `1 + firstByte * 64`, the cached signers' signatures
are placed by identity, and the result is re-serialized: on success the
cache entry is deleted, on a serialization error the cache is left
intact. -/
def mintSign (cache : Cache) (wallet : String) (txIn : Tx) :
    SignResponse × Cache :=
  match cacheGet cache wallet with
  | none => (.badRequest expiredErrorMsg, cache)
  | some entry =>
      let txBuffer := wireBytes txIn.signatures txIn.message.body
      let sigCount := txBuffer.headD 0
      let messageStart := 1 + sigCount * 64
      let messageBytes := txBuffer.drop messageStart
      let sigs2 := addBackendSignatures messageBytes entry.signers txIn.signatures
      let txOut : Tx := { txIn with signatures := sigs2 }
      match serializeTx txOut with
      | .ok bytes => (.ok txOut bytes, cacheDelete cache wallet)
      | .error e =>
          (.serverError ("Failed to serialize transaction: " ++ e), cache)

/-- The ledger's built-in no-op system identity (the Solana system program
address). -/
def systemProgramId : Pubkey := "11111111111111111111111111111111"

/-- Concrete secret key used in witnesses. -/
def wSecretKey : Bytes := List.replicate 64 5

/-- Concrete requester signature used in witnesses. -/
def wReqSig : Bytes := List.replicate 64 1

/-- Concrete builder signer list used in witnesses. -/
def wRaws : List Signer := [{ publicKey := "B", secretKey := some wSecretKey }]

/-- Concrete backend signer list used in witnesses. -/
def wSigners : List Keypair := [{ publicKey := "B", secretKey := wSecretKey }]

/-- Concrete cache holding the witness signer set for wallet W. -/
def wCache : Cache := [("W", { signers := wSigners, timestamp := 0 })]

/-- Concrete user-signed transaction used in witnesses: the requester slot
signed, the backend slot still null. -/
def wTxIn : Tx :=
  { signatures := [{ publicKey := "W", signature := some wReqSig },
                   { publicKey := "B", signature := none }],
    message := { requiredSigners := ["W", "B"], body := [9, 9, 9] } }

/-- Concrete single-signer transaction used in the cache-expiry analysis. -/
def wTxSolo : Tx :=
  { signatures := [{ publicKey := "W", signature := some (List.replicate 64 2) }],
    message := { requiredSigners := ["W"], body := [1, 2, 3] } }

/-- Concrete single-slot transaction used in witnesses. -/
def wSlotW : SigSlot := { publicKey := "W", signature := some wReqSig }

/-- A fabricated 64-byte signature sitting in the no-op system identity's
slot of an incoming transaction. -/
def sysFake : Bytes := List.replicate 64 9

/-- Concrete incoming transaction whose table contains a signed slot for
the no-op system identity. -/
def sysTxIn : Tx :=
  { signatures := [{ publicKey := "W", signature := some wReqSig },
                   { publicKey := systemProgramId, signature := some sysFake },
                   { publicKey := "B", signature := none }],
    message := { requiredSigners := ["W", systemProgramId, "B"], body := [7] } }

/-- The transaction the reconciler returns for sysTxIn under wCache: the
backend slot signed, the system-identity slot passed through signed. -/
def sysTxOut : Tx :=
  { sysTxIn with
    signatures :=
      addBackendSignatures sysTxIn.message.body wSigners sysTxIn.signatures }

/-- Concrete oversized transaction: its wire form exceeds PACKET_DATA_SIZE,
so serialization fails. -/
def bigTx : Tx :=
  { signatures := [{ publicKey := "V", signature := some (List.replicate 64 3) }],
    message := { requiredSigners := ["V"], body := List.replicate 1300 0 } }

/-- Concrete cache entry for the oversized-transaction scenario. -/
def bigCache : Cache := [("V", { signers := [], timestamp := 0 })]

section ReconcilerLemmas

/-- Every signature the modelled signing primitive produces is 64 bytes. -/
theorem naclSignDetached_length (message secretKey : Bytes) :
    (naclSignDetached message secretKey).length = 64 := by
  simp [naclSignDetached]
  omega

/-- Setting a signature for an identity that already has a slot does not
change the sequence of slot identities. -/
theorem sbs_map_publicKey_of_has (sigs : List SigSlot) (pk : Pubkey) (sig : Bytes)
    (h : hasSlot sigs pk = true) :
    (setBackendSignature sigs pk sig).map (fun s => s.publicKey)
      = sigs.map (fun s => s.publicKey) := by
  induction sigs with
  | nil => simp [hasSlot, findSlot] at h
  | cons s rest ih =>
      by_cases hp : s.publicKey = pk
      · simp [setBackendSignature, hp]
      · have h2 : hasSlot rest pk = true := by
          simpa [hasSlot, findSlot, hp] using h
        simp [setBackendSignature, hp, ih h2]

/-- When no slot matches, the handler pushes a fresh signed slot. -/
theorem sbs_eq_append_of_not_has (sigs : List SigSlot) (pk : Pubkey) (sig : Bytes)
    (h : hasSlot sigs pk = false) :
    setBackendSignature sigs pk sig
      = sigs ++ [{ publicKey := pk, signature := some sig }] := by
  induction sigs with
  | nil => simp [setBackendSignature]
  | cons s rest ih =>
      by_cases hp : s.publicKey = pk
      · simp [hasSlot, findSlot, hp] at h
      · have h2 : hasSlot rest pk = false := by
          simpa [hasSlot, findSlot, hp] using h
        simp [setBackendSignature, hp, ih h2]

/-- Slots whose identity differs from the signed identity are untouched,
position by position. -/
theorem sbs_getElem_of_ne (sigs : List SigSlot) (pk : Pubkey) (sig : Bytes)
    (i : Nat) (slot : SigSlot) (h : sigs[i]? = some slot)
    (hne : slot.publicKey ≠ pk) :
    (setBackendSignature sigs pk sig)[i]? = some slot := by
  induction sigs generalizing i with
  | nil => simp at h
  | cons s rest ih =>
      by_cases hp : s.publicKey = pk
      · cases i with
        | zero =>
            simp at h
            subst h
            exact absurd hp hne
        | succ j =>
            simp at h
            simp [setBackendSignature, hp, h]
      · cases i with
        | zero =>
            simp at h
            subst h
            simp [setBackendSignature, hp]
        | succ j =>
            simp at h
            simp [setBackendSignature, hp, ih j h]

/-- After the update, the first slot matching the signed identity carries
exactly the fresh signature. -/
theorem sbs_findSlot_self (sigs : List SigSlot) (pk : Pubkey) (sig : Bytes) :
    findSlot (setBackendSignature sigs pk sig) pk
      = some { publicKey := pk, signature := some sig } := by
  induction sigs with
  | nil => simp [setBackendSignature, findSlot]
  | cons s rest ih =>
      obtain ⟨spk, ssig⟩ := s
      by_cases hp : spk = pk
      · simp [setBackendSignature, findSlot, hp]
      · simp [setBackendSignature, findSlot, hp, ih]

/-- The update leaves lookups for every other identity unchanged. -/
theorem sbs_findSlot_other (sigs : List SigSlot) (pk pk2 : Pubkey) (sig : Bytes)
    (hne : pk2 ≠ pk) :
    findSlot (setBackendSignature sigs pk sig) pk2 = findSlot sigs pk2 := by
  have hne2 : pk ≠ pk2 := fun h => hne h.symm
  induction sigs with
  | nil => simp [setBackendSignature, findSlot, hne2]
  | cons s rest ih =>
      obtain ⟨spk, ssig⟩ := s
      by_cases hp : spk = pk
      · subst hp
        simp [setBackendSignature, findSlot, hne2]
      · by_cases hq : spk = pk2
        · subst hq
          simp [setBackendSignature, findSlot, hp]
        · simp [setBackendSignature, findSlot, hp, hq, ih]

/-- An identity that had a slot still has one after any update. -/
theorem sbs_hasSlot_of (sigs : List SigSlot) (pk pk2 : Pubkey) (sig : Bytes)
    (h : hasSlot sigs pk2 = true) :
    hasSlot (setBackendSignature sigs pk sig) pk2 = true := by
  by_cases he : pk2 = pk
  · subst he
    simp [hasSlot, sbs_findSlot_self]
  · simpa [hasSlot, sbs_findSlot_other sigs pk pk2 sig he] using h

/-- The update preserves 64-byte well-formedness when the new signature is
64 bytes long. -/
theorem sbs_wf64 (sigs : List SigSlot) (pk : Pubkey) (sig : Bytes)
    (h : slotsWf64 sigs = true) (hlen : sig.length = 64) :
    slotsWf64 (setBackendSignature sigs pk sig) = true := by
  induction sigs with
  | nil => simp [setBackendSignature, slotsWf64, slotWf64, hlen]
  | cons s rest ih =>
      obtain ⟨spk, ssig⟩ := s
      simp [slotsWf64] at h
      by_cases hp : spk = pk
      · simp [setBackendSignature, hp, slotsWf64, slotWf64, hlen]
        exact fun x hx => h.2 x hx
      · have := ih (by simp [slotsWf64]; exact h.2)
        simp [setBackendSignature, hp, slotsWf64] at this ⊢
        exact ⟨h.1, this⟩

/-- The signing loop does not disturb lookups for identities held by none
of the signers it processes. -/
theorem abs_findSlot_preserved (messageBytes : Bytes) (signers : List Keypair)
    (sigs : List SigSlot) (pk : Pubkey)
    (h : ∀ kp ∈ signers, kp.publicKey ≠ pk) :
    findSlot (addBackendSignatures messageBytes signers sigs) pk
      = findSlot sigs pk := by
  induction signers generalizing sigs with
  | nil => simp [addBackendSignatures]
  | cons kp rest ih =>
      have h1 : kp.publicKey ≠ pk := h kp (by simp)
      have h2 : ∀ k ∈ rest, k.publicKey ≠ pk := fun k hk => h k (by simp [hk])
      simp only [addBackendSignatures, List.foldl_cons] at ih ⊢
      rw [ih _ h2, sbs_findSlot_other _ _ _ _ (fun he => h1 he.symm)]

/-- After the signing loop, the first slot matching each processed signer
(the signers having pairwise distinct identities) carries that signer's
detached signature over the message bytes. -/
theorem abs_findSlot (messageBytes : Bytes) (signers : List Keypair)
    (sigs : List SigSlot)
    (hd : (signers.map (fun kp => kp.publicKey)).Nodup)
    (kp : Keypair) (hkp : kp ∈ signers) :
    findSlot (addBackendSignatures messageBytes signers sigs) kp.publicKey
      = some { publicKey := kp.publicKey,
               signature := some (naclSignDetached messageBytes kp.secretKey) } := by
  induction signers generalizing sigs with
  | nil => simp at hkp
  | cons kp0 rest ih =>
      simp only [List.map_cons, List.nodup_cons] at hd
      rcases List.mem_cons.mp hkp with he | hm
      · subst he
        have hni : ∀ k ∈ rest, k.publicKey ≠ kp.publicKey := by
          intro k hk hcontra
          exact hd.1 (hcontra ▸ List.mem_map_of_mem (fun x => x.publicKey) hk)
        simp only [addBackendSignatures, List.foldl_cons]
        rw [show (List.foldl
              (fun acc k => setBackendSignature acc k.publicKey
                (naclSignDetached messageBytes k.secretKey))
              (setBackendSignature sigs kp.publicKey
                (naclSignDetached messageBytes kp.secretKey)) rest)
            = addBackendSignatures messageBytes rest
                (setBackendSignature sigs kp.publicKey
                  (naclSignDetached messageBytes kp.secretKey)) from rfl]
        rw [abs_findSlot_preserved _ _ _ _ hni]
        exact sbs_findSlot_self _ _ _
      · simp only [addBackendSignatures, List.foldl_cons]
        exact ih _ hd.2 hm

/-- Slots for identities outside the signer set keep their exact contents
and positions through the signing loop. -/
theorem abs_getElem_of_ne (messageBytes : Bytes) (signers : List Keypair)
    (sigs : List SigSlot) (i : Nat) (slot : SigSlot)
    (h : sigs[i]? = some slot)
    (hni : ∀ kp ∈ signers, slot.publicKey ≠ kp.publicKey) :
    (addBackendSignatures messageBytes signers sigs)[i]? = some slot := by
  induction signers generalizing sigs with
  | nil => simpa [addBackendSignatures] using h
  | cons kp rest ih =>
      simp only [addBackendSignatures, List.foldl_cons] at ih ⊢
      exact ih _ (sbs_getElem_of_ne _ _ _ _ _ h (hni kp (by simp)))
        (fun k hk => hni k (by simp [hk]))

/-- When every signer already has a slot, the loop changes no identity
sequence: nothing is appended and nothing is reordered. -/
theorem abs_map_publicKey_of_all_matched (messageBytes : Bytes)
    (signers : List Keypair) (sigs : List SigSlot)
    (hall : ∀ kp ∈ signers, hasSlot sigs kp.publicKey = true) :
    (addBackendSignatures messageBytes signers sigs).map (fun s => s.publicKey)
      = sigs.map (fun s => s.publicKey) := by
  induction signers generalizing sigs with
  | nil => simp [addBackendSignatures]
  | cons kp rest ih =>
      simp only [addBackendSignatures, List.foldl_cons] at ih ⊢
      rw [ih _ (fun k hk =>
            sbs_hasSlot_of _ _ _ _ (hall k (by simp [hk]))),
          sbs_map_publicKey_of_has _ _ _ (hall kp (by simp))]

/-- In general the loop only ever extends the identity sequence at the end:
the original slots keep their order and positions. -/
theorem abs_map_publicKey_extends (messageBytes : Bytes)
    (signers : List Keypair) (sigs : List SigSlot) :
    ∃ extra, (addBackendSignatures messageBytes signers sigs).map
        (fun s => s.publicKey)
      = sigs.map (fun s => s.publicKey) ++ extra := by
  induction signers generalizing sigs with
  | nil => exact ⟨[], by simp [addBackendSignatures]⟩
  | cons kp rest ih =>
      simp only [addBackendSignatures, List.foldl_cons] at ih ⊢
      cases hh : hasSlot sigs kp.publicKey with
      | true =>
          obtain ⟨e, he⟩ := ih
            (setBackendSignature sigs kp.publicKey
              (naclSignDetached messageBytes kp.secretKey))
          exact ⟨e, by rw [he, sbs_map_publicKey_of_has _ _ _ hh]⟩
      | false =>
          obtain ⟨e, he⟩ := ih
            (setBackendSignature sigs kp.publicKey
              (naclSignDetached messageBytes kp.secretKey))
          refine ⟨kp.publicKey :: e, ?_⟩
          rw [he, sbs_eq_append_of_not_has _ _ _ hh]
          simp

/-- The signing loop preserves 64-byte well-formedness of the table. -/
theorem abs_wf64 (messageBytes : Bytes) (signers : List Keypair)
    (sigs : List SigSlot) (h : slotsWf64 sigs = true) :
    slotsWf64 (addBackendSignatures messageBytes signers sigs) = true := by
  induction signers generalizing sigs with
  | nil => simpa [addBackendSignatures] using h
  | cons kp rest ih =>
      simp only [addBackendSignatures, List.foldl_cons] at ih ⊢
      exact ih _ (sbs_wf64 _ _ _ h (naclSignDetached_length _ _))

/-- hasKeypair tests membership of the identity among the collected keys. -/
theorem hasKeypair_iff (acc : List Keypair) (pk : Pubkey) :
    hasKeypair acc pk = true ↔ pk ∈ acc.map (fun kp => kp.publicKey) := by
  induction acc with
  | nil => simp [hasKeypair]
  | cons kp rest ih =>
      by_cases hp : kp.publicKey = pk
      · simp [hasKeypair, hp]
      · have hp2 : pk ≠ kp.publicKey := fun h => hp h.symm
        simp [hasKeypair, hp, ih, hp2]

/-- Every signer cached by /mint has an identity different from the
requester's wallet. -/
theorem buildBackendSigners_ne_wallet (wallet : Pubkey) (raws : List Signer) :
    ∀ kp ∈ buildBackendSigners wallet raws, kp.publicKey ≠ wallet := by
  have aux : ∀ (l : List Signer) (acc : List Keypair),
      (∀ kp ∈ acc, kp.publicKey ≠ wallet) →
      ∀ kp ∈ l.foldl (addBackendSigner wallet) acc, kp.publicKey ≠ wallet := by
    intro l
    induction l with
    | nil => intro acc hacc; simpa using hacc
    | cons s rest ih =>
        intro acc hacc
        simp only [List.foldl_cons]
        refine ih _ ?_
        intro kp hkp
        unfold addBackendSigner at hkp
        by_cases h1 : s.publicKey = wallet
        · simp [h1] at hkp
          exact hacc kp hkp
        · simp [h1] at hkp
          by_cases h2 : hasKeypair acc s.publicKey = true
          · simp [h2] at hkp
            exact hacc kp hkp
          · simp [Bool.not_eq_true] at h2
            simp [h2] at hkp
            cases hs : s.secretKey with
            | none => simp [hs] at hkp; exact hacc kp hkp
            | some sk =>
                simp [hs] at hkp
                rcases hkp with hkp | hkp
                · exact hacc kp hkp
                · subst hkp; exact h1
  exact aux raws [] (by simp)

/-- The identities of the signers cached by /mint are pairwise distinct:
the Map keyed by base58 deduplicates them. -/
theorem buildBackendSigners_nodup (wallet : Pubkey) (raws : List Signer) :
    ((buildBackendSigners wallet raws).map (fun kp => kp.publicKey)).Nodup := by
  have aux : ∀ (l : List Signer) (acc : List Keypair),
      ((acc.map (fun kp => kp.publicKey)).Nodup) →
      ((l.foldl (addBackendSigner wallet) acc).map (fun kp => kp.publicKey)).Nodup := by
    intro l
    induction l with
    | nil => intro acc hacc; simpa using hacc
    | cons s rest ih =>
        intro acc hacc
        simp only [List.foldl_cons]
        refine ih _ ?_
        unfold addBackendSigner
        by_cases h1 : s.publicKey = wallet
        · simpa [h1] using hacc
        · by_cases h2 : hasKeypair acc s.publicKey = true
          · simpa [h1, h2] using hacc
          · simp only [Bool.not_eq_true] at h2
            cases hs : s.secretKey with
            | none => simpa [h1, h2, hs] using hacc
            | some sk =>
                have hnm : s.publicKey ∉ acc.map (fun kp => kp.publicKey) := by
                  intro hmem
                  rw [← hasKeypair_iff] at hmem
                  rw [h2] at hmem
                  cases hmem
                simp only [h1, h2, hs, if_neg h1, Bool.false_eq_true, if_false]
                rw [List.map_append]
                refine List.Nodup.append hacc (by simp) ?_
                intro a ha hb
                simp at hb
                subst hb
                exact hnm ha
  exact aux raws [] (by simp)

/-- A well-formed slot always serializes to 64 bytes. -/
theorem sigField_length (s : SigSlot) (h : slotWf64 s = true) :
    (sigField s).length = 64 := by
  obtain ⟨pk, sig⟩ := s
  cases sig with
  | none => simp [sigField]
  | some b =>
      simp [slotWf64] at h
      simpa [sigField] using h

/-- The serialized signature table of a well-formed slot list is 64 bytes
per slot. -/
theorem sigTableBytes_length (sigs : List SigSlot) (h : slotsWf64 sigs = true) :
    (sigTableBytes sigs).length = 64 * sigs.length := by
  induction sigs with
  | nil => simp [sigTableBytes]
  | cons s rest ih =>
      simp [slotsWf64] at h
      have h1 : slotWf64 s = true := h.1
      have h2 : slotsWf64 rest = true := by
        simp [slotsWf64]
        exact h.2
      simp [sigTableBytes, List.flatten_cons, sigField_length s h1]
      simp [sigTableBytes] at ih
      rw [ih h2]
      ring

/-- Extracting 64 bytes at slot offset j from the serialized table (plus
any tail) yields exactly slot j's signature field. -/
theorem table_slice (sigs : List SigSlot) (tail : Bytes) (j : Nat)
    (slot : SigSlot) (hwf : slotsWf64 sigs = true) (hj : sigs[j]? = some slot) :
    ((sigTableBytes sigs ++ tail).drop (64 * j)).take 64 = sigField slot := by
  induction sigs generalizing j with
  | nil => simp at hj
  | cons s rest ih =>
      simp [slotsWf64] at hwf
      have h1 : (sigField s).length = 64 := sigField_length s hwf.1
      have h2 : slotsWf64 rest = true := by
        simp [slotsWf64]
        exact hwf.2
      cases j with
      | zero =>
          simp at hj
          subst hj
          simp [sigTableBytes, List.flatten_cons, List.append_assoc,
            List.take_append_eq_append_take, h1]
      | succ k =>
          simp at hj
          have : sigTableBytes (s :: rest) ++ tail
              = sigField s ++ (sigTableBytes rest ++ tail) := by
            simp [sigTableBytes, List.flatten_cons, List.append_assoc]
          rw [this]
          have hdrop : (sigField s ++ (sigTableBytes rest ++ tail)).drop (64 * (k + 1))
              = (sigTableBytes rest ++ tail).drop (64 * k) := by
            have h64 : 64 * (k + 1) = (sigField s).length + 64 * k := by
              rw [h1]; ring
            rw [h64, List.drop_append]
          rw [hdrop]
          exact ih k h2 hj

/-- With fewer than 128 signatures the first wire byte is the signature
count, exactly as the /mint/sign handler assumes. -/
theorem wire_headD (sigs : List SigSlot) (body : Bytes)
    (h : sigs.length < 128) :
    (wireBytes sigs body).headD 0 = sigs.length := by
  simp [wireBytes, shortvec, h]

/-- Dropping the count byte and the 64-byte signature fields from the wire
form recovers exactly the message bytes: the byte range the handler signs
is the serialized message. -/
theorem wire_drop_message (sigs : List SigSlot) (body : Bytes)
    (h : sigs.length < 128) (hwf : slotsWf64 sigs = true) :
    (wireBytes sigs body).drop (1 + sigs.length * 64) = body := by
  have hlen : (sigTableBytes sigs).length = 64 * sigs.length :=
    sigTableBytes_length sigs hwf
  simp only [wireBytes, shortvec, if_pos h]
  have : ([sigs.length] ++ (sigTableBytes sigs ++ body)).drop (1 + sigs.length * 64)
      = (sigTableBytes sigs ++ body).drop (sigs.length * 64) := by
    rw [Nat.add_comm 1 (sigs.length * 64)]
    simp [List.drop_succ_cons]
  rw [List.append_assoc, this]
  have h2 : sigs.length * 64 = (sigTableBytes sigs).length + 0 := by
    rw [hlen]; ring
  rw [h2, List.drop_append]
  simp

/-- Extracting the 64 bytes at signature offset j of the wire form yields
slot j's signature field. -/
theorem wire_sig_extract (sigs : List SigSlot) (body : Bytes) (j : Nat)
    (slot : SigSlot) (h : sigs.length < 128) (hwf : slotsWf64 sigs = true)
    (hj : sigs[j]? = some slot) :
    ((wireBytes sigs body).drop (1 + 64 * j)).take 64 = sigField slot := by
  simp only [wireBytes, shortvec, if_pos h]
  have : ([sigs.length] ++ (sigTableBytes sigs ++ body)).drop (1 + 64 * j)
      = (sigTableBytes sigs ++ body).drop (64 * j) := by
    rw [Nat.add_comm 1 (64 * j)]
    simp [List.drop_succ_cons]
  rw [List.append_assoc, this]
  exact table_slice sigs body j slot hwf hj

end ReconcilerLemmas

section EligibilityTheorems

/-- Membership and `List.contains` agree for strings. -/
theorem contains_eq_mem (l : List String) (a : String) :
    l.contains a = true ↔ a ∈ l := by
  simp [List.contains_iff_exists_mem_beq, beq_iff_eq]

/-- C4 counterexample: the claim asserts the eligibility check has no side
effects, but when the minted-list file is unreadable, loadMinted (called by
checkEligibility) rewrites minted.json as an empty array: the minted file
state changes from unreadable to an existing empty-array file. -/
theorem checkEligibility_writes_minted_on_failure :
    (checkEligibility (.array ["A"]) .failure "A"
      = ({ eligible := true, reason := none }, .array ["A"], .array []))
    ∧ (FileRead.array [] : FileRead) ≠ .failure := by
  constructor
  · rfl
  · decide

/-- C4 (amended): the eligibility decision follows the whitelist-first,
minted-second rule with the stated reasons, and the check leaves both list
files untouched whenever they are readable arrays; the only state change is
that an unreadable minted file is rewritten as an empty array. -/
theorem checkEligibility_cases (wl mt : List String) (wallet : String) :
    (wallet ∉ wl →
      (checkEligibility (.array wl) (.array mt) wallet).1
        = { eligible := false, reason := some notOnWhitelistReason }) ∧
    (wallet ∈ wl → wallet ∈ mt →
      (checkEligibility (.array wl) (.array mt) wallet).1
        = { eligible := false, reason := some alreadyMintedReason }) ∧
    (wallet ∈ wl → wallet ∉ mt →
      (checkEligibility (.array wl) (.array mt) wallet).1
        = { eligible := true, reason := none }) ∧
    ((checkEligibility (.array wl) (.array mt) wallet).2 = (.array wl, .array mt)) ∧
    ((checkEligibility (.array wl) .failure wallet).2 = (.array wl, .array [])) := by
  refine ⟨?_, ?_, ?_, rfl, rfl⟩
  · intro h
    simp [checkEligibility, checkEligibilityCore, loadWhitelistEff, loadMintedEff, h]
  · intro h1 h2
    simp [checkEligibility, checkEligibilityCore, loadWhitelistEff, loadMintedEff, h1, h2]
  · intro h1 h2
    simp [checkEligibility, checkEligibilityCore, loadWhitelistEff, loadMintedEff, h1, h2]

/-- Witness for checkEligibility_cases at concrete lists. -/
theorem checkEligibility_cases_witness :
    ((checkEligibility (.array ["A", "B"]) (.array ["A"]) "C").1
      = { eligible := false, reason := some notOnWhitelistReason }) ∧
    ((checkEligibility (.array ["A", "B"]) (.array ["A"]) "A").1
      = { eligible := false, reason := some alreadyMintedReason }) ∧
    ((checkEligibility (.array ["A", "B"]) (.array ["A"]) "B").1
      = { eligible := true, reason := none }) := by
  refine ⟨?_, ?_, ?_⟩
  · exact (checkEligibility_cases ["A", "B"] ["A"] "C").1 (by decide)
  · exact (checkEligibility_cases ["A", "B"] ["A"] "A").2.1 (by decide) (by decide)
  · exact (checkEligibility_cases ["A", "B"] ["A"] "B").2.2.1 (by decide) (by decide)

/-- C10: when the whitelist file is unreadable or not an array the check
behaves as if the allow-list were empty (every wallet is not on the
whitelist), and when the minted file is unreadable or not an array the
check behaves as if the minted list were empty (every whitelisted wallet,
including one that had previously minted, is eligible again). -/
theorem eligibility_on_corrupt_files (wallet : String) :
    (∀ mtFile, (checkEligibility .failure mtFile wallet).1
        = { eligible := false, reason := some notOnWhitelistReason }) ∧
    (∀ mtFile, (checkEligibility .nonArray mtFile wallet).1
        = { eligible := false, reason := some notOnWhitelistReason }) ∧
    (∀ wl, wallet ∈ wl →
      (checkEligibility (.array wl) .failure wallet).1
          = { eligible := true, reason := none } ∧
      (checkEligibility (.array wl) .nonArray wallet).1
          = { eligible := true, reason := none }) := by
  refine ⟨?_, ?_, ?_⟩
  · intro mtFile
    cases mtFile <;> rfl
  · intro mtFile
    cases mtFile <;> rfl
  · intro wl hmem
    constructor <;>
      simp [checkEligibility, checkEligibilityCore, loadWhitelistEff, loadMintedEff, hmem]

/-- Witness for eligibility_on_corrupt_files on a previously-minted wallet. -/
theorem eligibility_on_corrupt_files_witness :
    (checkEligibility .failure (.array ["A"]) "A").1
        = { eligible := false, reason := some notOnWhitelistReason } ∧
    (checkEligibility (.array ["A"]) .failure "A").1
        = { eligible := true, reason := none } := by
  exact ⟨(eligibility_on_corrupt_files "A").1 (.array ["A"]),
         ((eligibility_on_corrupt_files "A").2.2 ["A"] (by decide)).1⟩

end EligibilityTheorems

section ConfirmTheorems

/-- C8: /mint/confirm appends the wallet exactly when the observed status is
confirmed or finalized and the wallet is not already recorded; a second
confirmed call changes nothing, so the wallet ends up recorded exactly
once; any other status leaves the minted list unchanged and reports not
confirmed with the observed status. -/
theorem mintConfirm_spec (status : Option String) (minted : List String)
    (wallet signature : String) :
    ((status = some "confirmed" ∨ status = some "finalized") →
      (wallet ∈ minted → mintConfirm status minted wallet signature
          = (.success signature, minted)) ∧
      (wallet ∉ minted → mintConfirm status minted wallet signature
          = (.success signature, minted ++ [wallet]))) ∧
    (status ≠ some "confirmed" → status ≠ some "finalized" →
      mintConfirm status minted wallet signature = (.notConfirmed status, minted)) ∧
    ((mintConfirm status
        (mintConfirm status minted wallet signature).2 wallet signature).2
      = (mintConfirm status minted wallet signature).2) ∧
    (status = some "finalized" → wallet ∉ minted →
      ((mintConfirm status minted wallet signature).2).count wallet = 1 ∧
      ((mintConfirm status
          (mintConfirm status minted wallet signature).2 wallet signature).2).count wallet
        = 1) := by
  refine ⟨?_, ?_, ?_, ?_⟩
  · intro hst
    constructor
    · intro hw
      simp [mintConfirm, hst, hw]
    · intro hw
      simp [mintConfirm, hst, hw]
  · intro h1 h2
    have hne : ¬ (status = some "confirmed" ∨ status = some "finalized") := by
      rintro (h | h) <;> [exact h1 h; exact h2 h]
    simp [mintConfirm, hne]
  · by_cases hst : status = some "confirmed" ∨ status = some "finalized"
    · by_cases hw : wallet ∈ minted
      · simp [mintConfirm, hst, hw]
      · simp [mintConfirm, hst, hw]
    · simp [mintConfirm, hst]
  · intro hst hw
    have hcount : (minted ++ [wallet]).count wallet = 1 := by
      have h0 : minted.count wallet = 0 := List.count_eq_zero.mpr hw
      simp [List.count_append, h0]
    simp [mintConfirm, hst, hw, hcount]

/-- Witness for mintConfirm_spec: a finalized confirmation for a new wallet
appends it, and a second confirmation is a no-op. -/
theorem mintConfirm_spec_witness :
    (mintConfirm (some "finalized") [] "A" "sig" = (.success "sig", ["A"])) ∧
    ((mintConfirm (some "finalized") ["A"] "A" "sig").2 = ["A"]) ∧
    (["A"].count "A" = 1) := by
  have h := mintConfirm_spec (some "finalized") [] "A" "sig"
  refine ⟨(h.1 (Or.inr rfl)).2 (by decide), ?_, ?_⟩
  · have h2 := (mintConfirm_spec (some "finalized") ["A"] "A" "sig").1 (Or.inr rfl)
    have := h2.1 (by decide)
    simp [this]
  · exact ((h.2.2.2 rfl (by decide)).1).symm ▸ (by decide)

end ConfirmTheorems

section RpcTheorems

/-- C9 counterexample: a JSON-RPC request with the legitimate identifier 0
whose forwarding fails gets a synthesized envelope whose id is null, not
the original identifier, because the handler computes `req.body.id || null`
and 0 is falsy in JavaScript. -/
theorem rpcHandler_zero_id_counterexample :
    rpcHandler (.failure "network error") (some (.jnum 0))
      = .errorEnvelope (-32603) "network error" .jnull
    ∧ (JVal.jnull ≠ JVal.jnum 0) := by
  exact ⟨rfl, by decide⟩

/-- C9 (amended): on success the /rpc handler relays the upstream response
unmodified; on failure it synthesizes a JSON-RPC error envelope with the
generic internal-error code -32603 whose id is the original request's
identifier when that identifier is present and truthy, and null when the
identifier is absent or falsy (null, false, 0 or the empty string). -/
theorem rpcHandler_spec (outcome : FetchOutcome) (requestId : Option JVal) :
    (∀ body, outcome = .success body → rpcHandler outcome requestId = .relayed body) ∧
    (∀ msg, outcome = .failure msg →
      (requestId = none →
        rpcHandler outcome requestId = .errorEnvelope (-32603) msg .jnull) ∧
      (∀ v, requestId = some v → jsTruthy v = true →
        rpcHandler outcome requestId = .errorEnvelope (-32603) msg v) ∧
      (∀ v, requestId = some v → jsTruthy v = false →
        rpcHandler outcome requestId = .errorEnvelope (-32603) msg .jnull)) := by
  refine ⟨?_, ?_⟩
  · intro body h
    subst h
    rfl
  · intro msg h
    subst h
    refine ⟨?_, ?_, ?_⟩
    · intro h2
      subst h2
      rfl
    · intro v h2 h3
      subst h2
      simp [rpcHandler, h3]
    · intro v h2 h3
      subst h2
      simp [rpcHandler, h3]

/-- Witness for rpcHandler_spec: a failed relay of a request with string id
keeps the id, and a successful relay returns the body unmodified. -/
theorem rpcHandler_spec_witness :
    rpcHandler (.failure "boom") (some (.jstr "req-1"))
      = .errorEnvelope (-32603) "boom" (.jstr "req-1")
    ∧ rpcHandler (.success (.jnum 42)) (some (.jstr "req-1")) = .relayed (.jnum 42) := by
  constructor
  · exact ((rpcHandler_spec (.failure "boom") (some (.jstr "req-1"))).2 "boom" rfl).2.1
      (.jstr "req-1") rfl (by decide)
  · exact (rpcHandler_spec (.success (.jnum 42)) (some (.jstr "req-1"))).1 (.jnum 42) rfl

end RpcTheorems

section BuilderTheorems

/-- Every slot pushed by the /mint setup loop has a null signature. -/
theorem mintSetupSignatures_all_none (backend : List Keypair) :
    ∀ s ∈ mintSetupSignatures backend, s.signature = none := by
  have aux : ∀ (l : List Keypair) (acc : List SigSlot),
      (∀ s ∈ acc, s.signature = none) →
      ∀ s ∈ l.foldl
        (fun acc kp =>
          if hasSlot acc kp.publicKey then acc
          else acc ++ [{ publicKey := kp.publicKey, signature := none }]) acc,
        s.signature = none := by
    intro l
    induction l with
    | nil => intro acc hacc; simpa using hacc
    | cons kp rest ih =>
        intro acc hacc
        simp only [List.foldl_cons]
        refine ih _ ?_
        by_cases hh : hasSlot acc kp.publicKey
        · simpa [hh] using hacc
        · intro s hs
          simp [hh] at hs
          rcases hs with hs | hs
          · exact hacc s hs
          · simp [hs]
  exact aux backend [] (by simp)

/-- C3: the serialized transaction returned by /mint carries a signature
table with exactly one slot per required signing identity (the requester
fee payer and every backend-held signer among them), in exactly the order
of the compiled message's required-signer list, every slot still null.
The manual slot pushes of lines 264-275 are reconciled against the
compiled message by the serialize step, which yields one null slot per
required signer in message order whether or not the manual array already
matched. -/
theorem mint_signature_table (wallet : Pubkey) (required : List Pubkey)
    (backend : List Keypair) (hnd : required.Nodup) (hw : wallet ∈ required)
    (hb : ∀ kp ∈ backend, kp.publicKey ∈ required) :
    ((compileSignatures required (mintSetupSignatures backend)).map
        (fun s => s.publicKey) = required) ∧
    (∀ s ∈ compileSignatures required (mintSetupSignatures backend),
        s.signature = none) ∧
    (((compileSignatures required (mintSetupSignatures backend)).map
        (fun s => s.publicKey)).count wallet = 1) ∧
    (∀ kp ∈ backend,
      ((compileSignatures required (mintSetupSignatures backend)).map
          (fun s => s.publicKey)).count kp.publicKey = 1) := by
  have hmap : (compileSignatures required (mintSetupSignatures backend)).map
      (fun s => s.publicKey) = required := by
    unfold compileSignatures
    by_cases h : (mintSetupSignatures backend).map (fun s => s.publicKey) = required
    · simp [h]
    · simp only [h, if_false, List.map_map]
      have hc : ((fun s : SigSlot => s.publicKey)
          ∘ fun pk => ({ publicKey := pk, signature := none } : SigSlot))
          = fun pk => pk := rfl
      rw [hc]
      simp
  have hnone : ∀ s ∈ compileSignatures required (mintSetupSignatures backend),
      s.signature = none := by
    unfold compileSignatures
    by_cases h : (mintSetupSignatures backend).map (fun s => s.publicKey) = required
    · simpa [h] using mintSetupSignatures_all_none backend
    · intro s hs
      simp [h] at hs
      obtain ⟨pk, _, hpk⟩ := hs
      simp [← hpk]
  refine ⟨hmap, hnone, ?_, ?_⟩
  · rw [hmap]
    exact List.count_eq_one_of_mem hnd hw
  · intro kp hkp
    rw [hmap]
    exact List.count_eq_one_of_mem hnd (hb kp hkp)

/-- Witness for mint_signature_table: requester plus one backend signer. -/
theorem mint_signature_table_witness :
    ((compileSignatures ["W", "B"]
        (mintSetupSignatures [{ publicKey := "B", secretKey := [1] }])).map
        (fun s => s.publicKey) = ["W", "B"]) ∧
    (((compileSignatures ["W", "B"]
        (mintSetupSignatures [{ publicKey := "B", secretKey := [1] }])).map
        (fun s => s.publicKey)).count "W" = 1) := by
  have h := mint_signature_table "W" ["W", "B"]
    [{ publicKey := "B", secretKey := [1] }] (by decide) (by decide) (by decide)
  exact ⟨h.1, h.2.2.1⟩

end BuilderTheorems

section ReconcilerTheorems

/-- C2: for an incoming transaction on the wire (fewer than 128 signature
slots, 64 bytes per present signature), the first byte is the signature
count, the byte range from offset `1 + count * 64` onward is exactly the
serialized message the /mint handler placed after the signature table, the
backend signatures are detached signatures over exactly that range, and
the signing loop never recompiles or reorders the table: the original
slots keep their identities, order and positions, with new slots (if any)
only appended after them. -/
theorem reconcile_message_slice (txIn : Tx) (signers : List Keypair)
    (hcount : txIn.signatures.length < 128)
    (hwf : slotsWf64 txIn.signatures = true)
    (hd : (signers.map (fun kp => kp.publicKey)).Nodup) :
    ((wireBytes txIn.signatures txIn.message.body).headD 0
        = txIn.signatures.length) ∧
    ((wireBytes txIn.signatures txIn.message.body).drop
        (1 + (wireBytes txIn.signatures txIn.message.body).headD 0 * 64)
      = txIn.message.body) ∧
    (∀ kp ∈ signers,
      findSlot
        (addBackendSignatures
          ((wireBytes txIn.signatures txIn.message.body).drop
            (1 + (wireBytes txIn.signatures txIn.message.body).headD 0 * 64))
          signers txIn.signatures)
        kp.publicKey
      = some { publicKey := kp.publicKey,
               signature := some (naclSignDetached txIn.message.body kp.secretKey) }) ∧
    (∃ extra,
      (addBackendSignatures txIn.message.body signers txIn.signatures).map
          (fun s => s.publicKey)
        = txIn.signatures.map (fun s => s.publicKey) ++ extra) := by
  have hhead : (wireBytes txIn.signatures txIn.message.body).headD 0
      = txIn.signatures.length := wire_headD _ _ hcount
  have hslice : (wireBytes txIn.signatures txIn.message.body).drop
      (1 + (wireBytes txIn.signatures txIn.message.body).headD 0 * 64)
      = txIn.message.body := by
    rw [hhead]
    exact wire_drop_message _ _ hcount hwf
  refine ⟨hhead, hslice, ?_, abs_map_publicKey_extends _ _ _⟩
  intro kp hkp
  rw [hslice]
  exact abs_findSlot _ _ _ hd kp hkp

/-- Witness for reconcile_message_slice at a concrete transaction. -/
theorem reconcile_message_slice_witness :
    ((wireBytes wTxSolo.signatures wTxSolo.message.body).headD 0 = 1) ∧
    ((wireBytes wTxSolo.signatures wTxSolo.message.body).drop
        (1 + (wireBytes wTxSolo.signatures wTxSolo.message.body).headD 0 * 64)
      = wTxSolo.message.body) := by
  have h := reconcile_message_slice wTxSolo [] (by decide) (by decide) (by decide)
  exact ⟨h.1, h.2.1⟩

/-- Deleting a key from the cache makes lookups for it fail. -/
theorem cacheDelete_get (c : Cache) (k : String) :
    cacheGet (cacheDelete c k) k = none := by
  induction c with
  | nil => rfl
  | cons kv rest ih =>
      obtain ⟨k0, v0⟩ := kv
      by_cases h : k0 = k
      · simpa [cacheDelete, h] using ih
      · simpa [cacheDelete, cacheGet, h] using ih

/-- C5 counterexample: the claim demands that a reconciliation call made
after the five-minute time-to-live has elapsed since the build be rejected
as expired and mutate nothing.  But the /mint/sign handler checks only
whether a cache entry is present, never its age; eviction happens only in
the sixty-second periodic sweep.  Concretely, for an entry built at
timestamp 0 and a call at CACHE_TTL + 1 milliseconds (before any sweep has
run), the age exceeds the TTL yet the call succeeds and consumes the cache
entry. -/
theorem sign_after_ttl_counterexample :
    (CACHE_TTL + 1 - 0 > CACHE_TTL) ∧
    ((mintSign [("W", { signers := [], timestamp := 0 })] "W" wTxSolo).1
      = .ok wTxSolo (wireBytes wTxSolo.signatures wTxSolo.message.body)) ∧
    ((mintSign [("W", { signers := [], timestamp := 0 })] "W" wTxSolo).2 = []) := by
  refine ⟨by decide, ?_, ?_⟩ <;> rfl

/-- C5 (amended): a reconciliation call finding no cache entry for the
requester is rejected with the expired error and mutates nothing, and the
periodic sweep does evict every entry older than the TTL, so any call
after a sweep that ran once the TTL had elapsed is rejected; the handler
itself never checks the entry's age, so a call between TTL expiry and the
next sweep can still succeed. -/
theorem sign_expired_rejected :
    (∀ (cache : Cache) (wallet : String) (txIn : Tx),
      cacheGet cache wallet = none →
      mintSign cache wallet txIn = (.badRequest expiredErrorMsg, cache)) ∧
    (∀ (now : Nat) (cache : Cache) (wallet : String),
      (∀ kv ∈ cache, kv.1 = wallet → now - kv.2.timestamp > CACHE_TTL) →
      cacheGet (sweepCache now cache) wallet = none) := by
  constructor
  · intro cache wallet txIn h
    simp [mintSign, h]
  · intro now cache wallet h
    induction cache with
    | nil => rfl
    | cons kv rest ih =>
        obtain ⟨k0, v0⟩ := kv
        by_cases hk : k0 = wallet
        · subst hk
          have hex : now - v0.timestamp > CACHE_TTL := h (k0, v0) (by simp) rfl
          have hdrop : ¬ ¬ (now - v0.timestamp > CACHE_TTL) := fun hc => hc hex
          simp only [sweepCache, List.filter_cons]
          rw [decide_eq_false hdrop]
          exact ih (fun kv hkv hw => h kv (by simp [hkv]) hw)
        · by_cases hkeep : now - v0.timestamp > CACHE_TTL
          · simp only [sweepCache, List.filter_cons]
            rw [decide_eq_false (fun hc => hc hkeep)]
            exact ih (fun kv hkv hw => h kv (by simp [hkv]) hw)
          · simp only [sweepCache, List.filter_cons]
            rw [decide_eq_true hkeep]
            simp only [cacheGet, if_neg hk]
            exact ih (fun kv hkv hw => h kv (by simp [hkv]) hw)

/-- Witness for sign_expired_rejected: an empty cache rejects, and the
sweep evicts an entry one minute past its TTL. -/
theorem sign_expired_rejected_witness :
    (mintSign [] "W" wTxSolo = (.badRequest expiredErrorMsg, [])) ∧
    (cacheGet
      (sweepCache (CACHE_TTL + 60000) [("W", { signers := [], timestamp := 0 })])
      "W" = none) := by
  constructor
  · exact sign_expired_rejected.1 [] "W" wTxSolo rfl
  · exact sign_expired_rejected.2 (CACHE_TTL + 60000)
      [("W", { signers := [], timestamp := 0 })] "W" (by decide)

/-- C6: a successful reconciliation deletes the requester's cache entry, so
a repeated call is rejected as expired (at most one reconciliation per
build); a reconciliation failing at serialization leaves the cache exactly
as it was, so the client can retry. -/
theorem sign_cache_lifecycle (cache : Cache) (wallet : String) (txIn : Tx)
    (entry : CacheEntry) (hhit : cacheGet cache wallet = some entry) :
    (∀ t b, (mintSign cache wallet txIn).1 = .ok t b →
      ((mintSign cache wallet txIn).2 = cacheDelete cache wallet) ∧
      (cacheGet (cacheDelete cache wallet) wallet = none) ∧
      (∀ tx2, mintSign (cacheDelete cache wallet) wallet tx2
        = (.badRequest expiredErrorMsg, cacheDelete cache wallet))) ∧
    (∀ e, (mintSign cache wallet txIn).1 = .serverError e →
      (mintSign cache wallet txIn).2 = cache) := by
  have hdel : cacheGet (cacheDelete cache wallet) wallet = none :=
    cacheDelete_get cache wallet
  constructor
  · intro t b hok
    refine ⟨?_, hdel, ?_⟩
    · simp only [mintSign, hhit] at hok ⊢
      cases hser : serializeTx
          { txIn with
            signatures :=
              addBackendSignatures
                ((wireBytes txIn.signatures txIn.message.body).drop
                  (1 + (wireBytes txIn.signatures txIn.message.body).headD 0 * 64))
                entry.signers txIn.signatures } with
      | ok bytes => simp [hser]
      | error e =>
          rw [hser] at hok
          simp at hok
    · intro tx2
      simp [mintSign, hdel]
  · intro e herr
    simp only [mintSign, hhit] at herr ⊢
    cases hser : serializeTx
        { txIn with
          signatures :=
            addBackendSignatures
              ((wireBytes txIn.signatures txIn.message.body).drop
                (1 + (wireBytes txIn.signatures txIn.message.body).headD 0 * 64))
              entry.signers txIn.signatures } with
    | ok bytes =>
        rw [hser] at herr
        simp at herr
    | error e2 => simp [hser]

/-- Witness for sign_cache_lifecycle: the success path consumes the entry
for wallet W and a repeat call is rejected; the oversized transaction for
wallet V fails serialization and leaves its cache entry untouched. -/
theorem sign_cache_lifecycle_witness :
    (((mintSign wCache "W" wTxIn).2 = cacheDelete wCache "W") ∧
      (cacheGet (cacheDelete wCache "W") "W" = none) ∧
      (∀ tx2, mintSign (cacheDelete wCache "W") "W" tx2
        = (.badRequest expiredErrorMsg, cacheDelete wCache "W"))) ∧
    ((mintSign bigCache "V" bigTx).2 = bigCache) := by
  constructor
  · refine (sign_cache_lifecycle wCache "W" wTxIn
      { signers := wSigners, timestamp := 0 } rfl).1
      { wTxIn with
        signatures :=
          addBackendSignatures wTxIn.message.body wSigners wTxIn.signatures }
      (wireBytes
        (addBackendSignatures wTxIn.message.body wSigners wTxIn.signatures)
        wTxIn.message.body) ?_
    rfl
  · exact (sign_cache_lifecycle bigCache "V" bigTx
      { signers := [], timestamp := 0 } rfl).2
      ("Failed to serialize transaction: " ++ "Transaction too large") rfl

/-- C7 counterexample: the claim demands that the returned transaction
never carry a signature in a slot held by the no-op system identity, any
such slot being discarded or left unpopulated.  The /mint/sign handler has
no handling of the system identity at all: an incoming transaction whose
system-identity slot already carries (fabricated) signature bytes is
returned with that slot still signed, and no slot is discarded. -/
theorem sign_system_slot_counterexample :
    ((mintSign wCache "W" sysTxIn).1
      = .ok sysTxOut (wireBytes sysTxOut.signatures sysTxIn.message.body)) ∧
    (sysTxOut.signatures[1]? = some { publicKey := systemProgramId,
                                      signature := some sysFake }) ∧
    (some sysFake ≠ (none : Option Bytes)) := by
  refine ⟨rfl, rfl, by decide⟩

/-- C7 (amended): the reconciler itself never populates a signature slot
for the no-op system identity as long as that identity is not among the
cached backend signers: every slot held by the system identity passes into
the returned transaction exactly as it arrived — unchanged, not discarded,
and with any signature it already carried preserved. -/
theorem sign_system_slot_passthrough (cache : Cache) (wallet : String)
    (txIn : Tx) (entry : CacheEntry) (i : Nat) (slot : SigSlot)
    (hhit : cacheGet cache wallet = some entry)
    (hsys : ∀ kp ∈ entry.signers, kp.publicKey ≠ systemProgramId)
    (hslot : txIn.signatures[i]? = some slot)
    (hpk : slot.publicKey = systemProgramId) :
    ∀ t b, (mintSign cache wallet txIn).1 = .ok t b →
      t.signatures[i]? = some slot := by
  intro t b hok
  simp only [mintSign, hhit] at hok
  cases hser : serializeTx
      { txIn with
        signatures :=
          addBackendSignatures
            ((wireBytes txIn.signatures txIn.message.body).drop
              (1 + (wireBytes txIn.signatures txIn.message.body).headD 0 * 64))
            entry.signers txIn.signatures } with
  | error e =>
      rw [hser] at hok
      simp at hok
  | ok bytes =>
      rw [hser] at hok
      simp only [SignResponse.ok.injEq] at hok
      rw [← hok.1]
      exact abs_getElem_of_ne _ _ _ _ _ hslot
        (fun kp hkp hc => hsys kp hkp (hpk ▸ hc.symm ▸ rfl))

/-- Witness for sign_system_slot_passthrough: under the witness cache the
signed system-identity slot of sysTxIn reappears untouched in the returned
transaction. -/
theorem sign_system_slot_passthrough_witness :
    sysTxOut.signatures[1]?
      = some { publicKey := systemProgramId, signature := some sysFake } := by
  exact sign_system_slot_passthrough wCache "W" sysTxIn
    { signers := wSigners, timestamp := 0 } 1
    { publicKey := systemProgramId, signature := some sysFake }
    rfl (by decide) rfl rfl
    sysTxOut (wireBytes sysTxOut.signatures sysTxIn.message.body) rfl

/-- C1: for a reconciliation request whose requester has a cached backend
signer set (as /mint builds it: deduplicated keypairs distinct from the
requester) and whose incoming transaction is a faithful wire transaction
from the build step (signature table aligned with the message's required
signers, every cached signer holding a slot), the handler succeeds: each
backend-held identity's matching slot — matched by identity, the first
slot whose key equals the signer's — receives that signer's detached
signature, a new slot would be appended only when no slot matches (the
single-step characterization below), the requester's slot is untouched,
and the requester's signature bytes occupy the same 64-byte range of the
returned wire bytes as of the incoming wire bytes, bit for bit. -/
theorem reconcile_sets_by_identity (cache : Cache) (wallet : Pubkey)
    (raws : List Signer) (signers : List Keypair) (ts : Nat) (txIn : Tx)
    (j : Nat) (reqSig : Bytes)
    (hsigners : signers = buildBackendSigners wallet raws)
    (hcache : cacheGet cache wallet = some { signers := signers, timestamp := ts })
    (hwfpk : txIn.signatures.map (fun s => s.publicKey)
      = txIn.message.requiredSigners)
    (hwf64 : slotsWf64 txIn.signatures = true)
    (hcount : txIn.signatures.length < 128)
    (hmatch : ∀ kp ∈ signers, hasSlot txIn.signatures kp.publicKey = true)
    (hsize : (wireBytes txIn.signatures txIn.message.body).length
      ≤ PACKET_DATA_SIZE)
    (hreq : txIn.signatures[j]?
      = some { publicKey := wallet, signature := some reqSig }) :
    (mintSign cache wallet txIn
      = (.ok
          { txIn with signatures :=
              addBackendSignatures txIn.message.body signers txIn.signatures }
          (wireBytes
            (addBackendSignatures txIn.message.body signers txIn.signatures)
            txIn.message.body),
         cacheDelete cache wallet)) ∧
    (∀ kp ∈ signers,
      findSlot (addBackendSignatures txIn.message.body signers txIn.signatures)
          kp.publicKey
        = some { publicKey := kp.publicKey,
                 signature := some (naclSignDetached txIn.message.body kp.secretKey) }) ∧
    (∀ (tbl : List SigSlot) (pk : Pubkey) (sg : Bytes),
      (hasSlot tbl pk = true →
        (setBackendSignature tbl pk sg).map (fun s => s.publicKey)
          = tbl.map (fun s => s.publicKey)) ∧
      (hasSlot tbl pk = false →
        setBackendSignature tbl pk sg
          = tbl ++ [{ publicKey := pk, signature := some sg }])) ∧
    ((addBackendSignatures txIn.message.body signers txIn.signatures)[j]?
      = some { publicKey := wallet, signature := some reqSig }) ∧
    (((wireBytes
        (addBackendSignatures txIn.message.body signers txIn.signatures)
        txIn.message.body).drop (1 + 64 * j)).take 64 = reqSig) ∧
    (((wireBytes txIn.signatures txIn.message.body).drop (1 + 64 * j)).take 64
      = reqSig) := by
  have hne : ∀ kp ∈ signers, kp.publicKey ≠ wallet := by
    rw [hsigners]
    exact buildBackendSigners_ne_wallet wallet raws
  have hnd : (signers.map (fun kp => kp.publicKey)).Nodup := by
    rw [hsigners]
    exact buildBackendSigners_nodup wallet raws
  have hmapeq : (addBackendSignatures txIn.message.body signers
      txIn.signatures).map (fun s => s.publicKey)
      = txIn.signatures.map (fun s => s.publicKey) :=
    abs_map_publicKey_of_all_matched _ _ _ hmatch
  have hlen2 : (addBackendSignatures txIn.message.body signers
      txIn.signatures).length = txIn.signatures.length := by
    have := congrArg List.length hmapeq
    simpa using this
  have hwf2 : slotsWf64 (addBackendSignatures txIn.message.body signers
      txIn.signatures) = true := abs_wf64 _ _ _ hwf64
  have hslot2 : (addBackendSignatures txIn.message.body signers
      txIn.signatures)[j]?
      = some { publicKey := wallet, signature := some reqSig } := by
    refine abs_getElem_of_ne _ _ _ _ _ hreq ?_
    intro kp hkp hc
    exact hne kp hkp hc.symm
  have hwirelen : (wireBytes (addBackendSignatures txIn.message.body signers
      txIn.signatures) txIn.message.body).length
      = (wireBytes txIn.signatures txIn.message.body).length := by
    simp only [wireBytes, List.length_append,
      sigTableBytes_length _ hwf2, sigTableBytes_length _ hwf64, hlen2]
  have hcompile : compileSignatures txIn.message.requiredSigners
      (addBackendSignatures txIn.message.body signers txIn.signatures)
      = addBackendSignatures txIn.message.body signers txIn.signatures := by
    simp [compileSignatures, hmapeq, hwfpk]
  have hser : serializeTx
      { txIn with signatures :=
          addBackendSignatures txIn.message.body signers txIn.signatures }
      = .ok (wireBytes
          (addBackendSignatures txIn.message.body signers txIn.signatures)
          txIn.message.body) := by
    simp only [serializeTx, hcompile]
    rw [if_neg (by omega : ¬ (256 ≤ (addBackendSignatures txIn.message.body
      signers txIn.signatures).length))]
    rw [if_neg (by rw [hwirelen]; exact Nat.not_lt.mpr hsize)]
  have hmsg_slice : (wireBytes txIn.signatures txIn.message.body).drop
      (1 + (wireBytes txIn.signatures txIn.message.body).headD 0 * 64)
      = txIn.message.body := by
    rw [wire_headD _ _ hcount]
    exact wire_drop_message _ _ hcount hwf64
  refine ⟨?_, ?_, ?_, hslot2, ?_, ?_⟩
  · simp only [mintSign, hcache]
    rw [hmsg_slice, hser]
  · intro kp hkp
    exact abs_findSlot _ _ _ hnd kp hkp
  · intro tbl pk sg
    exact ⟨sbs_map_publicKey_of_has tbl pk sg, sbs_eq_append_of_not_has tbl pk sg⟩
  · have := wire_sig_extract
      (addBackendSignatures txIn.message.body signers txIn.signatures)
      txIn.message.body j { publicKey := wallet, signature := some reqSig }
      (by omega) hwf2 hslot2
    simpa [sigField] using this
  · have := wire_sig_extract txIn.signatures txIn.message.body j
      { publicKey := wallet, signature := some reqSig } hcount hwf64 hreq
    simpa [sigField] using this

/-- Witness for reconcile_sets_by_identity on the concrete build-and-sign
round trip for wallet W with backend signer B. -/
theorem reconcile_sets_by_identity_witness :
    (mintSign wCache "W" wTxIn
      = (.ok
          { wTxIn with signatures :=
              addBackendSignatures wTxIn.message.body wSigners wTxIn.signatures }
          (wireBytes
            (addBackendSignatures wTxIn.message.body wSigners wTxIn.signatures)
            wTxIn.message.body),
         cacheDelete wCache "W")) ∧
    ((addBackendSignatures wTxIn.message.body wSigners wTxIn.signatures)[0]?
      = some { publicKey := "W", signature := some wReqSig }) ∧
    (((wireBytes
        (addBackendSignatures wTxIn.message.body wSigners wTxIn.signatures)
        wTxIn.message.body).drop (1 + 64 * 0)).take 64 = wReqSig) ∧
    (((wireBytes wTxIn.signatures wTxIn.message.body).drop (1 + 64 * 0)).take 64
      = wReqSig) := by
  have h := reconcile_sets_by_identity wCache "W" wRaws wSigners 0 wTxIn 0
    wReqSig (by decide) rfl rfl (by decide) (by decide) (by decide)
    (by decide) rfl
  exact ⟨h.1, h.2.2.2.1, h.2.2.2.2.1, h.2.2.2.2.2⟩

end ReconcilerTheorems
